import Mathlib

/-!
Shallow embedding of the mopm vault codec, encryptor, manager, storage and
shield components (`src/core/encoder.rs`, `src/core/encryptor.rs`,
`src/core/hasher.rs`, `src/core/identifiers.rs`, `src/core/manager.rs`,
`src/core/encoding/version.rs`, `src/storage/store.rs`,
`src/app/application.rs`).

Modelling conventions:
- Rust byte slices (`&[u8]`, `Vec<u8>`, `Box<[u8]>`) are `List Nat`, with
  values understood modulo the places where the code performs arithmetic.
- Rust `String` keys are byte lists carrying a proof of UTF-8 validity
  (`ValidKey`), since a Rust `String` is exactly a valid-UTF-8 byte buffer.
- `HashMap` is an association list; `HashMap::insert` replaces the value of
  an existing key in place and appends unknown keys.  Map equality claims are
  proved up to the lookup function (and, where possible, on the nose).
- The SHA-256 compression itself and the AES-256-GCM primitive live in
  external crates (`sha2`, `aes_gcm`); they are passed in as parameters: an
  arbitrary digest function `sha` (with the 32-byte output property the
  encoder relies on) and an `AesGcm` structure bundling seal/open with the
  AEAD inverse law.  The nonce drawn from `OsRng` in `AESEncryptor::encrypt`
  is likewise passed as a parameter.  Code of the repository itself (key
  derivation, nonce framing, hex encoding, header/body framing) is
  translated concretely.
- Rust panics (`unwrap`/`expect` on an `Err`) are modelled by a distinguished
  `panicked` outcome, separate from returning an error.
-/

namespace Mopm

/-- Big-endian byte decomposition of `(n as u64).to_be_bytes()`. -/
def toBE64 (n : Nat) : List Nat :=
  [n / 256 ^ 7 % 256, n / 256 ^ 6 % 256, n / 256 ^ 5 % 256, n / 256 ^ 4 % 256,
   n / 256 ^ 3 % 256, n / 256 ^ 2 % 256, n / 256 % 256, n % 256]

/-- `u64::from_be_bytes` on an 8-byte big-endian list. -/
def fromBE64 (l : List Nat) : Nat :=
  l.foldl (fun a b => a * 256 + b) 0

/-- UTF-8 continuation byte test (`0x80..=0xBF`). -/
def isCont (b : Nat) : Bool :=
  128 ≤ b && b ≤ 191

/-- Validity of a byte sequence as UTF-8, as checked by `String::from_utf8`
(shortest-form encodings only, surrogates excluded). -/
def isValidUtf8 : List Nat → Bool
  | [] => true
  | b :: rest =>
    if b ≤ 127 then isValidUtf8 rest
    else if 194 ≤ b && b ≤ 223 then
      match rest with
      | c1 :: rest1 => isCont c1 && isValidUtf8 rest1
      | [] => false
    else if b = 224 then
      match rest with
      | c1 :: c2 :: rest2 => (160 ≤ c1 && c1 ≤ 191) && isCont c2 && isValidUtf8 rest2
      | _ => false
    else if 225 ≤ b && b ≤ 236 then
      match rest with
      | c1 :: c2 :: rest2 => isCont c1 && isCont c2 && isValidUtf8 rest2
      | _ => false
    else if b = 237 then
      match rest with
      | c1 :: c2 :: rest2 => (128 ≤ c1 && c1 ≤ 159) && isCont c2 && isValidUtf8 rest2
      | _ => false
    else if 238 ≤ b && b ≤ 239 then
      match rest with
      | c1 :: c2 :: rest2 => isCont c1 && isCont c2 && isValidUtf8 rest2
      | _ => false
    else if b = 240 then
      match rest with
      | c1 :: c2 :: c3 :: rest3 =>
        (144 ≤ c1 && c1 ≤ 191) && isCont c2 && isCont c3 && isValidUtf8 rest3
      | _ => false
    else if 241 ≤ b && b ≤ 243 then
      match rest with
      | c1 :: c2 :: c3 :: rest3 => isCont c1 && isCont c2 && isCont c3 && isValidUtf8 rest3
      | _ => false
    else if b = 244 then
      match rest with
      | c1 :: c2 :: c3 :: rest3 =>
        (128 ≤ c1 && c1 ≤ 143) && isCont c2 && isCont c3 && isValidUtf8 rest3
      | _ => false
    else false

/-- A Rust `String`: a byte buffer that is valid UTF-8. -/
abbrev ValidKey := { l : List Nat // isValidUtf8 l = true }

/-- The in-memory vault mapping `HashMap<String, Box<[u8]>>`, as an
association list. -/
abbrev VaultKV := List (ValidKey × List Nat)

/-- Association-list lookup (`HashMap::get`). -/
def lookupA {α β : Type} [DecidableEq α] : List (α × β) → α → Option β
  | [], _ => none
  | (k, v) :: rest, key => if k = key then some v else lookupA rest key

/-- Association-list insert with `HashMap::insert` semantics: overwrite the
value of an existing key, append a fresh key. -/
def insertA {α β : Type} [DecidableEq α] : List (α × β) → α → β → List (α × β)
  | [], key, value => [(key, value)]
  | (k, v) :: rest, key, value =>
    if k = key then (key, value) :: rest else (k, v) :: insertA rest key value

/-- `EncoderError` from `src/core/encoder.rs`. -/
inductive EncoderError where
  | BodyParseError
  | InvalidHeaderSize
  | ReaderError
  | HeaderParseError
  | UnsupportedEncryptorVersionError
  | IvalidKeyError
deriving DecidableEq

/-- `EncryprtorError` from `src/core/encryptor.rs` (messages elided). -/
inductive EncryprtorError where
  | EncryptionError
  | DecryptionError
deriving DecidableEq

/-- The bytes contributed to `Body::to_bytes` by one map entry: 8-byte BE key
length, 8-byte BE value length, key bytes, value bytes. -/
def entryBytes (e : ValidKey × List Nat) : List Nat :=
  toBE64 e.1.val.length ++ toBE64 e.2.length ++ e.1.val ++ e.2

namespace Body

/-- `Body::to_bytes`: fold over the map, appending the frame of each entry. -/
def toBytes (kv : VaultKV) : List Nat :=
  kv.foldl (fun acc e => acc ++ entryBytes e) []

/-- `Body::read_u64`: take 8 bytes from the stream (error if fewer remain)
and decode them big-endian. -/
def readU64 (bytes : List Nat) : Except EncoderError (Nat × List Nat) :=
  if bytes.length < 8 then .error .BodyParseError
  else .ok (fromBE64 (bytes.take 8), bytes.drop 8)

/-- The `while iter.peek().is_some()` loop of `Body::try_from_bytes`.  The
fuel argument only bounds the number of iterations; each iteration consumes
at least 16 bytes, so fuel `bytes.length` never runs out. -/
def parseEntries (fuel : Nat) (bytes : List Nat) (kv : VaultKV) :
    Except EncoderError VaultKV :=
  if bytes.isEmpty then .ok kv
  else
    match fuel with
    | 0 => .error .BodyParseError
    | fuel + 1 =>
      match readU64 bytes with
      | .error e => .error e
      | .ok (klen, r1) =>
        match readU64 r1 with
        | .error e => .error e
        | .ok (vlen, r2) =>
          let key := r2.take klen
          if key.length = klen then
            let value := (r2.drop klen).take vlen
            if value.length = vlen then
              if h : isValidUtf8 key = true then
                parseEntries fuel ((r2.drop klen).drop vlen) (insertA kv ⟨key, h⟩ value)
              else .error .BodyParseError
            else .error .BodyParseError
          else .error .BodyParseError

/-- `Body::try_from_bytes` (the empty-input early return coincides with the
exit condition of the loop). -/
def tryFromBytes (bytes : List Nat) : Except EncoderError VaultKV :=
  parseEntries bytes.length bytes []

end Body

/-- `Version` from `src/core/encoding/version.rs` (`#[repr(u8)]`, single
variant `V0_0 = 0`). -/
inductive Version where
  | V0_0
deriving DecidableEq

/-- `Version::from_u8` via `TryFromPrimitive`. -/
def Version.fromU8 (id : Nat) : Option Version :=
  if id = 0 then some .V0_0 else none

/-- `Version::to_u8` via `IntoPrimitive`. -/
def Version.toU8 : Version → Nat
  | .V0_0 => 0

/-- `Version::current_version`. -/
def Version.currentVersion : Version := .V0_0

/-- `Header` from `src/core/encoder.rs`: version byte, encryptor id byte and
a 32-byte body digest (`[u8; 32]` is a list with a length invariant). -/
structure Header where
  version : Version
  encryptorId : Nat
  bodySha : List Nat
  shaLen : bodySha.length = 32

/-- `Header::SIZE = size_of::<Header>() = 34`. -/
def headerSize : Nat := 34

/-- `Header::to_bytes`: offset 0 holds `Version::current_version().to_u8()`
(not the stored version field), offset 1 the encryptor id, offsets 2..34 the
digest. -/
def Header.toBytes (h : Header) : List Nat :=
  Version.currentVersion.toU8 :: h.encryptorId :: h.bodySha

/-- `Header::try_from_bytes` on the 34-byte buffer produced by
`Header::try_from_reader`. -/
def Header.tryFromBytes : List Nat → Except EncoderError Header
  | b0 :: b1 :: rest =>
    match Version.fromU8 b0 with
    | none => .error .HeaderParseError
    | some v =>
      if h : rest.length = 32 then .ok ⟨v, b1, rest, h⟩
      else .error .HeaderParseError
  | _ => .error .HeaderParseError

/-- The AES-256-GCM primitive of the external `aes_gcm` crate, abstracted:
`gcmSeal key nonce plain` is the AEAD output (ciphertext plus tag), `gcmOpn` is
authenticated decryption, and opening a sealed message under the same key and
nonce recovers the plaintext. -/
structure AesGcm where
  gcmSeal : List Nat → List Nat → List Nat → List Nat
  gcmOpn : List Nat → List Nat → List Nat → Option (List Nat)
  gcmOpnSeal : ∀ k n p, gcmOpn k n (gcmSeal k n p) = some p

/-- `Aes256Gcm::key_size()`. -/
def aesKeySize : Nat := 32

/-- `NONCE_LENGTH` in `AESEncryptor::decrypt` (and the length of
`Aes256Gcm::generate_nonce`). -/
def nonceLength : Nat := 12

namespace AESEncryptor

/-- The key-derivation steps of `AESEncryptor::new`: truncate a too-long
password to 32 bytes, right-pad a too-short one with zero bytes. -/
def derivedKey (key : List Nat) : List Nat :=
  let byteKey := if key.length > aesKeySize then key.take aesKeySize else key
  if byteKey.length < aesKeySize then
    byteKey ++ List.replicate (aesKeySize - byteKey.length) 0
  else byteKey

/-- `AESEncryptor::encrypt`: draw a nonce (passed in, drawn from `OsRng` in
the source) and emit `nonce || seal(key, nonce, data)`. -/
def encrypt (A : AesGcm) (key32 nonce data : List Nat) :
    Except EncryprtorError (List Nat) :=
  .ok (nonce ++ A.gcmSeal key32 nonce data)

/-- `AESEncryptor::decrypt`: require at least 12 bytes, split off the nonce,
open the remainder; a failed AEAD open is a `DecryptionError`. -/
def decrypt (A : AesGcm) (key32 data : List Nat) :
    Except EncryprtorError (List Nat) :=
  if data.length < nonceLength then .error .DecryptionError
  else
    match A.gcmOpn key32 (data.take nonceLength) (data.drop nonceLength) with
    | some p => .ok p
    | none => .error .DecryptionError

end AESEncryptor

namespace BlankEncryptor

/-- `BlankEncryptor::encrypt`: identity. -/
def encrypt (data : List Nat) : Except EncryprtorError (List Nat) :=
  .ok data

/-- `BlankEncryptor::decrypt`: identity. -/
def decrypt (data : List Nat) : Except EncryprtorError (List Nat) :=
  .ok data

end BlankEncryptor

/-- `BLANKENCRYPTOR_ID` from `src/core/identifiers.rs`. -/
def BLANKENCRYPTOR_ID : Nat := 0

/-- `AESENCRYPTOR_ID` from `src/core/identifiers.rs`. -/
def AESENCRYPTOR_ID : Nat := 1

/-- `encryptor_from_id`, specialised to the decrypt capability `decode`
uses: id 0 is the passthrough provider, id 1 an `AESEncryptor` built from the
supplied password, anything else is unsupported. -/
def encryptor_from_id (A : AesGcm) (id : Nat) (key : List Nat) :
    Option (List Nat → Except EncryprtorError (List Nat)) :=
  if id = BLANKENCRYPTOR_ID then some BlankEncryptor.decrypt
  else if id = AESENCRYPTOR_ID then
    some (AESEncryptor.decrypt A (AESEncryptor.derivedKey key))
  else none

/-- Lowercase hex digit of a nibble, as a byte of the output string of
`hex::encode`. -/
def hexDigitByte (n : Nat) : Nat :=
  if n < 10 then 48 + n else 87 + n

/-- `hex::encode`: each byte becomes two lowercase hex characters, high
nibble first. -/
def hexEncode (bytes : List Nat) : List Nat :=
  (bytes.map (fun b => [hexDigitByte (b / 16 % 16), hexDigitByte (b % 16)])).flatten

/-- `Sha256Hasher::hash` from `src/core/hasher.rs` as written: it
hex-encodes the finalized digest, so its output is the byte string of a
64-character hex string, not the raw 32-byte digest.  `sha` stands for the
external `sha2::Sha256` digest. -/
def Sha256Hasher.hash (sha : List Nat → List Nat) (data : List Nat) : List Nat :=
  hexEncode (sha data)

/-- Outcome of `Encoder::decode`: a successful `PasswordManager`
(encryptor id and mapping), a returned `EncoderError`, or a panic at one of
the `unwrap()` calls. -/
inductive DecodeResult where
  | ok : Nat → VaultKV → DecodeResult
  | err : EncoderError → DecodeResult
  | panicked : DecodeResult
deriving DecidableEq

/-- Outcome of `Encoder::encode`: the bytes written, or a panic at one of
the `unwrap()` calls (`encrypt(..).unwrap()`, `try_into().unwrap()`). -/
inductive EncodeResult where
  | ok : List Nat → EncodeResult
  | panicked : EncodeResult
deriving DecidableEq

namespace Encoder

/-- `Encoder::decode`.  The input stream is a byte list; `sha` is the digest
function the `Hasher` produces the body digest with.  Steps: read a 34-byte
header (fewer available bytes = `InvalidHeaderSize`), parse it, resolve the
encryptor id, read the rest of the stream and decrypt it (a decrypt `Err` is
`unwrap`ped: panic), compare the recomputed digest against the header digest
(`IvalidKeyError` on mismatch), parse the body (a parse `Err` is `unwrap`ped:
panic). -/
def decode (A : AesGcm) (sha : List Nat → List Nat) (key input : List Nat) :
    DecodeResult :=
  if input.length < headerSize then .err .InvalidHeaderSize
  else
    match Header.tryFromBytes (input.take headerSize) with
    | .error e => .err e
    | .ok h =>
      match encryptor_from_id A h.encryptorId key with
      | none => .err .UnsupportedEncryptorVersionError
      | some decr =>
        match decr (input.drop headerSize) with
        | .error _ => .panicked
        | .ok body =>
          if sha body = h.bodySha then
            match Body.tryFromBytes body with
            | .error _ => .panicked
            | .ok kv => .ok h.encryptorId kv
          else .err .IvalidKeyError

/-- `Encoder::encode`, generic over the encryptor of the vault (id and encrypt
function) as the source is generic over `T: Encryprtor + Identifiable`:
serialize the body, digest it, encrypt it, then emit the header bytes
followed by the ciphertext.  The digest must convert into a `[u8; 32]`
(`try_into().unwrap()`), otherwise encode panics. -/
def encode (encId : Nat) (encr : List Nat → Except EncryprtorError (List Nat))
    (sha : List Nat → List Nat) (kv : VaultKV) : EncodeResult :=
  let bodyBytes := Body.toBytes kv
  let bodySha := sha bodyBytes
  match encr bodyBytes with
  | .error _ => .panicked
  | .ok bodyEncrypted =>
    if bodySha.length = 32 then
      .ok ((Version.currentVersion.toU8 :: encId :: bodySha) ++ bodyEncrypted)
    else .panicked

end Encoder

/-- `PasswordManagerError` from `src/core/manager.rs`. -/
inductive PasswordManagerError where
  | EncryptorError (e : EncryprtorError)
  | NoPasswordFound
deriving DecidableEq

/-- `PasswordManager` from `src/core/manager.rs`: the key/value map plus the
owned encryptor, the latter modelled by its encrypt function. -/
structure PasswordManager where
  kv : List (List Nat × List Nat)
  enc : List Nat → Except EncryprtorError (List Nat)

/-- `PasswordManager::store_password`: encrypt the value (an encryption
error returns before any mutation), then insert the ciphertext under the
key.  The returned pair is (result, manager after the call). -/
def PasswordManager.store_password (pm : PasswordManager)
    (key value : List Nat) :
    Except PasswordManagerError Unit × PasswordManager :=
  match pm.enc value with
  | .error e => (.error (.EncryptorError e), pm)
  | .ok encVal => (.ok (), { pm with kv := insertA pm.kv key encVal })

/-- `StorageError` cases relevant to `Storage::clear` (others collapsed). -/
inductive StorageError where
  | RootDoesNotExistErorr
  | OtherError
deriving DecidableEq

/-- Filesystem state the shield acts on: whether the decoy is bind-mounted
over the vault root, whether the real root directory exists, and the files
under it. -/
structure SysState where
  decoyMounted : Bool
  rootExists : Bool
  rootContents : List (List Nat)
deriving DecidableEq

/-- `Storage::clear`: error if the root does not exist, otherwise
`remove_dir_all` deletes the root and everything under it. -/
def Storage.clear (s : SysState) : Except StorageError SysState :=
  if s.rootExists = false then .error .RootDoesNotExistErorr
  else .ok { s with rootExists := false, rootContents := [] }

/-- Observable system actions issued by the shield handlers, in program
order. -/
inductive SysAction where
  | prepareDecoy
  | mountDecoy
  | unmountDecoy
  | sleepDelay
  | clearRoot
deriving DecidableEq

/-- Effect of one shield action on the filesystem state.  `clearRoot` is
`App::handle_clear`, which runs `Storage::clear` and treats its error as a
no-op on the state. -/
def applyAction (s : SysState) : SysAction → SysState
  | .prepareDecoy => s
  | .mountDecoy => { s with decoyMounted := true }
  | .unmountDecoy => { s with decoyMounted := false }
  | .sleepDelay => s
  | .clearRoot =>
    match Storage.clear s with
    | .ok s1 => s1
    | .error _ => s

/-- Run a trace of shield actions left to right. -/
def runTrace (s : SysState) (tr : List SysAction) : SysState :=
  tr.foldl applyAction s

/-- `App::handle_shield_down`: spawn `umount` on the vault root; nothing
else. -/
def handle_shield_down_trace : List SysAction := [.unmountDecoy]

/-- `App::handle_shield_up` as the trace of actions it issues, as a function
of the stream of open events the inotify watch delivers: prepare the decoy,
bind-mount it over the root, then block; with no event nothing further
happens, and on the first event run `handle_shield_down`, sleep the fixed
1000 ms delay, run `handle_clear`, and break out of the watch loop (no
further actions regardless of later events). -/
def handle_shield_up_trace (events : List Unit) : List SysAction :=
  .prepareDecoy :: .mountDecoy ::
    (match events with
     | [] => []
     | _ :: _ => handle_shield_down_trace ++ [.sleepDelay, .clearRoot])

/-- Concrete 32-byte digest function used to instantiate the abstract `sha`
parameter in witnesses. -/
def shaZ : List Nat → List Nat := fun _ => List.replicate 32 0

/-- Concrete AEAD instance (identity) used to instantiate the abstract
`AesGcm` parameter in witnesses. -/
def gcmId : AesGcm :=
  ⟨fun _ _ p => p, fun _ _ c => some c, fun _ _ _ => rfl⟩

/-- Concrete AEAD instance in which the ciphertext is the key followed by
the plaintext and opening checks the key prefix, so that opening under a
different key fails.  Used to witness wrong-password behaviour. -/
def gcmKeyed : AesGcm :=
  ⟨fun k _ p => k ++ p,
   fun k _ c => if c.take k.length = k then some (c.drop k.length) else none,
   fun k n p => by simp [List.take_left, List.drop_left]⟩

/-- The string key `foo` with its UTF-8 validity proof. -/
def keyFoo : ValidKey := ⟨[102, 111, 111], by decide⟩

/-- The empty string key with its UTF-8 validity proof. -/
def keyEmpty : ValidKey := ⟨[], by decide⟩

/-- Sample vault mapping used by witnesses: `foo -> [1, 2, 3]` and the empty
key mapped to the empty value. -/
def kvSample : VaultKV := [(keyFoo, [1, 2, 3]), (keyEmpty, [])]

/-- Sample manager for witnesses: one stored entry, an encryptor that
prepends a zero byte. -/
def pmSample : PasswordManager :=
  ⟨[([3], [9])], fun v => .ok (0 :: v)⟩

/-- Sample filesystem state for witnesses: decoy not mounted, root present
with one file. -/
def sysSample : SysState := ⟨false, true, [[1]]⟩

end Mopm

namespace Mopm

theorem toBE64_length (n : Nat) : (toBE64 n).length = 8 := rfl

theorem fromBE64_toBE64 (n : Nat) (h : n < 2 ^ 64) : fromBE64 (toBE64 n) = n := by
  simp only [toBE64, fromBE64, List.foldl_cons, List.foldl_nil]
  norm_num
  omega

theorem entryBytes_length (e : ValidKey × List Nat) :
    (entryBytes e).length = 16 + e.1.val.length + e.2.length := by
  simp [entryBytes, toBE64]
  omega

theorem readU64_ok (n : Nat) (h : n < 2 ^ 64) (rest : List Nat) :
    Body.readU64 (toBE64 n ++ rest) = .ok (n, rest) := by
  have hlen : (toBE64 n).length = 8 := rfl
  have hnot : ¬ (toBE64 n ++ rest).length < 8 := by
    simp [List.length_append, hlen]
  rw [Body.readU64, if_neg hnot, List.take_left' hlen, List.drop_left' hlen,
    fromBE64_toBE64 n h]

theorem hexEncode_length (l : List Nat) : (hexEncode l).length = 2 * l.length := by
  induction l with
  | nil => rfl
  | cons b t ih =>
    simp only [hexEncode, List.map_cons, List.flatten_cons, List.length_append,
      List.length_cons, List.length_nil] at ih ⊢
    omega

theorem toBytes_foldl_general (kv : VaultKV) :
    ∀ acc : List Nat,
      kv.foldl (fun acc e => acc ++ entryBytes e) acc = acc ++ (kv.map entryBytes).flatten := by
  induction kv with
  | nil => intro acc; simp
  | cons e t ih => intro acc; simp [List.foldl_cons, ih]

theorem toBytes_eq_flatten (kv : VaultKV) :
    Body.toBytes kv = (kv.map entryBytes).flatten := by
  rw [Body.toBytes, toBytes_foldl_general]
  simp

theorem insertA_fresh {α β : Type} [DecidableEq α] (kv : List (α × β)) (k : α) (v : β)
    (h : ∀ e ∈ kv, e.1 ≠ k) : insertA kv k v = kv ++ [(k, v)] := by
  induction kv with
  | nil => rfl
  | cons e t ih =>
    obtain ⟨a, b⟩ := e
    have ha : a ≠ k := h (a, b) (by simp)
    simp only [insertA, if_neg ha, List.cons_append]
    rw [ih (fun x hx => h x (by simp [hx]))]

theorem lookupA_insertA_self {α β : Type} [DecidableEq α] (kv : List (α × β)) (k : α) (v : β) :
    lookupA (insertA kv k v) k = some v := by
  induction kv with
  | nil => simp [insertA, lookupA]
  | cons e t ih =>
    obtain ⟨a, b⟩ := e
    by_cases hak : a = k
    · simp [insertA, hak, lookupA]
    · simp [insertA, hak, lookupA, ih]

theorem lookupA_insertA_ne {α β : Type} [DecidableEq α] (kv : List (α × β)) (k k' : α) (v : β)
    (h : k' ≠ k) : lookupA (insertA kv k v) k' = lookupA kv k' := by
  have hkk : ¬ k = k' := fun hc => h hc.symm
  induction kv with
  | nil => simp [insertA, lookupA, hkk]
  | cons e t ih =>
    obtain ⟨a, b⟩ := e
    by_cases hak : a = k
    · simp [insertA, hak, lookupA, hkk]
    · simp [insertA, hak, lookupA, ih]

theorem foldl_insertA_append {α β : Type} [DecidableEq α] :
    ∀ (entries acc : List (α × β)),
      (entries.map Prod.fst).Nodup →
      (∀ e ∈ entries, ∀ a ∈ acc, a.1 ≠ e.1) →
      entries.foldl (fun a e => insertA a e.1 e.2) acc = acc ++ entries := by
  intro entries
  induction entries with
  | nil => intro acc _ _; simp
  | cons e t ih =>
    intro acc hnodup hdisj
    have hnotmem : e.1 ∉ t.map Prod.fst := (List.nodup_cons.mp (by simpa using hnodup)).1
    have hfresh : insertA acc e.1 e.2 = acc ++ [(e.1, e.2)] :=
      insertA_fresh acc e.1 e.2 (fun a ha => hdisj e (by simp) a ha)
    rw [List.foldl_cons, hfresh,
      ih (acc ++ [(e.1, e.2)]) (List.nodup_cons.mp (by simpa using hnodup)).2 ?_]
    · simp
    · intro x hx a ha
      rcases List.mem_append.mp ha with hacc | hone
      · exact hdisj x (by simp [hx]) a hacc
      · have ha2 : a = (e.1, e.2) := by simpa using hone
        subst ha2
        intro hcontra
        exact hnotmem (by rw [hcontra]; exact List.mem_map_of_mem Prod.fst hx)

theorem parseEntries_succ (f : Nat) (bytes : List Nat) (kv : VaultKV) :
    Body.parseEntries (f + 1) bytes kv =
      if bytes.isEmpty then .ok kv
      else
        match Body.readU64 bytes with
        | .error e => .error e
        | .ok (klen, r1) =>
          match Body.readU64 r1 with
          | .error e => .error e
          | .ok (vlen, r2) =>
            if (r2.take klen).length = klen then
              if ((r2.drop klen).take vlen).length = vlen then
                if h : isValidUtf8 (r2.take klen) = true then
                  Body.parseEntries f ((r2.drop klen).drop vlen)
                    (insertA kv ⟨r2.take klen, h⟩ ((r2.drop klen).take vlen))
                else .error .BodyParseError
              else .error .BodyParseError
            else .error .BodyParseError := by
  rfl

theorem parseEntries_nil (fuel : Nat) (kv : VaultKV) :
    Body.parseEntries fuel [] kv = .ok kv := by
  cases fuel <;> rfl

theorem parseEntries_step (f : Nat) (key value rest : List Nat) (kv : VaultKV)
    (hk : key.length < 2 ^ 64) (hv : value.length < 2 ^ 64)
    (hval : isValidUtf8 key = true) :
    Body.parseEntries (f + 1)
        (toBE64 key.length ++ (toBE64 value.length ++ (key ++ (value ++ rest)))) kv
      = Body.parseEntries f rest (insertA kv ⟨key, hval⟩ value) := by
  have hne : ¬ ((toBE64 key.length ++
      (toBE64 value.length ++ (key ++ (value ++ rest)))).isEmpty = true) := by
    simp [toBE64]
  rw [parseEntries_succ, if_neg hne, readU64_ok key.length hk]
  simp only [readU64_ok value.length hv, List.take_left, List.drop_left, dif_pos hval,
    eq_self_iff_true, if_true]

theorem parseEntries_roundTrip :
    ∀ (entries : VaultKV) (fuel : Nat) (acc : VaultKV),
      (∀ e ∈ entries, e.1.val.length < 2 ^ 64 ∧ e.2.length < 2 ^ 64) →
      ((entries.map entryBytes).flatten).length ≤ fuel →
      Body.parseEntries fuel ((entries.map entryBytes).flatten) acc =
        .ok (entries.foldl (fun a e => insertA a e.1 e.2) acc) := by
  intro entries
  induction entries with
  | nil =>
    intro fuel acc _ _
    simp [parseEntries_nil]
  | cons e t ih =>
    intro fuel acc hlen hfuel
    obtain ⟨hklen, hvlen⟩ := hlen e (List.mem_cons_self e t)
    have hbytes : ((e :: t).map entryBytes).flatten
        = toBE64 e.1.val.length ++
          (toBE64 e.2.length ++ (e.1.val ++ (e.2 ++ (t.map entryBytes).flatten))) := by
      simp [entryBytes, List.append_assoc]
    rw [hbytes] at hfuel ⊢
    have hpos : 16 + ((t.map entryBytes).flatten).length ≤ fuel := by
      simp only [List.length_append, toBE64_length] at hfuel
      omega
    obtain ⟨f, rfl⟩ : ∃ f, fuel = f + 1 := ⟨fuel - 1, by omega⟩
    rw [parseEntries_step f e.1.val e.2 ((t.map entryBytes).flatten) acc hklen hvlen e.1.property]
    have hsub : ∀ x ∈ t, x.1.val.length < 2 ^ 64 ∧ x.2.length < 2 ^ 64 :=
      fun x hx => hlen x (List.mem_cons_of_mem e hx)
    rw [ih f (insertA acc e.1 e.2) hsub (by omega)]
    simp [List.foldl_cons]

theorem tryFromBytes_toBytes (kv : VaultKV)
    (hnodup : (kv.map Prod.fst).Nodup)
    (hlen : ∀ e ∈ kv, e.1.val.length < 2 ^ 64 ∧ e.2.length < 2 ^ 64) :
    Body.tryFromBytes (Body.toBytes kv) = .ok kv := by
  rw [Body.tryFromBytes, toBytes_eq_flatten]
  rw [parseEntries_roundTrip kv _ [] hlen (le_refl _)]
  rw [foldl_insertA_append kv [] hnodup (fun e _ a ha => absurd ha (List.not_mem_nil a))]
  simp

theorem decode_ok_of_parts (A : AesGcm) (sha : List Nat → List Nat) (key : List Nat)
    (encId : Nat) (shaB ct body : List Nat) (hsha32 : shaB.length = 32)
    (decr : List Nat → Except EncryprtorError (List Nat))
    (hid : encryptor_from_id A encId key = some decr)
    (hdec : decr ct = .ok body) (hdig : sha body = shaB)
    (kv : VaultKV) (hparse : Body.tryFromBytes body = .ok kv) :
    Encoder.decode A sha key ((0 :: encId :: shaB) ++ ct) = .ok encId kv := by
  have hpre : (0 :: encId :: shaB).length = headerSize := by
    simp [headerSize, hsha32]
  have hnotlt : ¬ ((0 :: encId :: shaB) ++ ct).length < headerSize := by
    simp only [List.length_append, List.length_cons, headerSize, hsha32]
    omega
  simp only [Encoder.decode]
  rw [if_neg hnotlt, List.take_left' hpre, List.drop_left' hpre]
  simp only [Header.tryFromBytes, Version.fromU8, eq_self_iff_true, if_true, dif_pos hsha32,
    hid, hdec, hdig, hparse]

theorem readU64_error (bytes : List Nat) (e : EncoderError)
    (h : Body.readU64 bytes = .error e) : e = .BodyParseError := by
  unfold Body.readU64 at h
  split at h
  · simp only [Except.error.injEq] at h
    exact h.symm
  · simp at h

theorem parseEntries_zero (bytes : List Nat) (kv : VaultKV) :
    Body.parseEntries 0 bytes kv =
      if bytes.isEmpty then .ok kv else .error .BodyParseError := by
  rfl

theorem parseEntries_error_eq :
    ∀ (fuel : Nat) (bytes : List Nat) (acc : VaultKV) (e : EncoderError),
      Body.parseEntries fuel bytes acc = .error e → e = .BodyParseError := by
  intro fuel
  induction fuel with
  | zero =>
    intro bytes acc e h
    rw [parseEntries_zero] at h
    split at h
    · simp at h
    · simp only [Except.error.injEq] at h
      exact h.symm
  | succ f ih =>
    intro bytes acc e h
    rw [parseEntries_succ] at h
    by_cases hb : bytes.isEmpty = true
    · rw [if_pos hb] at h
      simp at h
    · rw [if_neg hb] at h
      rcases hr1 : Body.readU64 bytes with e1 | ⟨klen, r1⟩
      · rw [hr1] at h
        simp only [Except.error.injEq] at h
        rw [← h]
        exact readU64_error bytes e1 hr1
      · rw [hr1] at h
        simp only at h
        rcases hr2 : Body.readU64 r1 with e2 | ⟨vlen, r2⟩
        · rw [hr2] at h
          simp only [Except.error.injEq] at h
          rw [← h]
          exact readU64_error r1 e2 hr2
        · rw [hr2] at h
          simp only at h
          split at h
          · split at h
            · split at h
              · exact ih _ _ _ h
              · simp only [Except.error.injEq] at h
                exact h.symm
            · simp only [Except.error.injEq] at h
              exact h.symm
          · simp only [Except.error.injEq] at h
            exact h.symm

theorem tryFromBytes_error_eq (bytes : List Nat) (e : EncoderError)
    (h : Body.tryFromBytes bytes = .error e) : e = .BodyParseError :=
  parseEntries_error_eq bytes.length bytes [] e h

theorem aes_decrypt_encrypt (A : AesGcm) (k nonce data : List Nat)
    (hn : nonce.length = nonceLength) :
    AESEncryptor.decrypt A k (nonce ++ A.gcmSeal k nonce data) = .ok data := by
  have hnot : ¬ (nonce ++ A.gcmSeal k nonce data).length < nonceLength := by
    simp only [List.length_append, hn]
    omega
  rw [AESEncryptor.decrypt, if_neg hnot, List.take_left' hn, List.drop_left' hn, A.gcmOpnSeal]

theorem aes_decrypt_err_of_opn_none (A : AesGcm) (k nonce ct : List Nat)
    (hn : nonce.length = nonceLength) (hnone : A.gcmOpn k nonce ct = none) :
    AESEncryptor.decrypt A k (nonce ++ ct) = .error .DecryptionError := by
  have hnot : ¬ (nonce ++ ct).length < nonceLength := by
    simp only [List.length_append, hn]
    omega
  rw [AESEncryptor.decrypt, if_neg hnot, List.take_left' hn, List.drop_left' hn, hnone]

theorem decode_panicked_of_parts (A : AesGcm) (sha : List Nat → List Nat) (key : List Nat)
    (encId : Nat) (shaB ct : List Nat) (hsha32 : shaB.length = 32)
    (decr : List Nat → Except EncryprtorError (List Nat))
    (hid : encryptor_from_id A encId key = some decr)
    (er : EncryprtorError) (hdec : decr ct = .error er) :
    Encoder.decode A sha key ((0 :: encId :: shaB) ++ ct) = .panicked := by
  have hpre : (0 :: encId :: shaB).length = headerSize := by
    simp [headerSize, hsha32]
  have hnotlt : ¬ ((0 :: encId :: shaB) ++ ct).length < headerSize := by
    simp only [List.length_append, List.length_cons, headerSize, hsha32]
    omega
  simp only [Encoder.decode]
  rw [if_neg hnotlt, List.take_left' hpre, List.drop_left' hpre]
  simp only [Header.tryFromBytes, Version.fromU8, eq_self_iff_true, if_true, dif_pos hsha32,
    hid, hdec]

theorem decode_err_unsupported (A : AesGcm) (sha : List Nat → List Nat) (key : List Nat)
    (id : Nat) (shaB rest : List Nat) (hsha32 : shaB.length = 32)
    (hnone : encryptor_from_id A id key = none) :
    Encoder.decode A sha key ((0 :: id :: shaB) ++ rest) =
      .err .UnsupportedEncryptorVersionError := by
  have hpre : (0 :: id :: shaB).length = headerSize := by
    simp [headerSize, hsha32]
  have hnotlt : ¬ ((0 :: id :: shaB) ++ rest).length < headerSize := by
    simp only [List.length_append, List.length_cons, headerSize, hsha32]
    omega
  simp only [Encoder.decode]
  rw [if_neg hnotlt, List.take_left' hpre, List.drop_left' hpre]
  simp only [Header.tryFromBytes, Version.fromU8, eq_self_iff_true, if_true, dif_pos hsha32,
    hnone]

theorem encode_blank_eq (sha : List Nat → List Nat) (kv : VaultKV)
    (hsha : (sha (Body.toBytes kv)).length = 32) :
    Encoder.encode BLANKENCRYPTOR_ID BlankEncryptor.encrypt sha kv =
      .ok ((0 :: 0 :: sha (Body.toBytes kv)) ++ Body.toBytes kv) := by
  simp only [Encoder.encode, BlankEncryptor.encrypt, if_pos hsha]
  rfl

theorem encode_aes_eq (A : AesGcm) (sha : List Nat → List Nat) (k32 nonce : List Nat)
    (kv : VaultKV) (hsha : (sha (Body.toBytes kv)).length = 32) :
    Encoder.encode AESENCRYPTOR_ID (AESEncryptor.encrypt A k32 nonce) sha kv =
      .ok ((0 :: 1 :: sha (Body.toBytes kv)) ++
        (nonce ++ A.gcmSeal k32 nonce (Body.toBytes kv))) := by
  simp only [Encoder.encode, AESEncryptor.encrypt, if_pos hsha]
  rfl

/-- Claim C1: for every mapping of string keys to byte-string values (with
the pairwise-distinct keys a `HashMap` guarantees and entry lengths
representable as `u64`) and every password, encoding a vault with
`Encoder::encode` and decoding the produced bytes with `Encoder::decode`
under the same password succeeds and yields exactly the original mapping —
including the empty mapping, empty keys and empty values — for the
passthrough provider and, for every nonce and every AEAD primitive, for the
AES-256-GCM provider. -/
theorem c1_encode_decode_round_trip (A : AesGcm) (sha : List Nat → List Nat)
    (hsha : ∀ b, (sha b).length = 32) (kv : VaultKV)
    (hnodup : (kv.map Prod.fst).Nodup)
    (hlen : ∀ e ∈ kv, e.1.val.length < 2 ^ 64 ∧ e.2.length < 2 ^ 64)
    (password nonce : List Nat) (hnonce : nonce.length = nonceLength) :
    (∃ out, Encoder.encode BLANKENCRYPTOR_ID BlankEncryptor.encrypt sha kv = .ok out ∧
      Encoder.decode A sha password out = .ok BLANKENCRYPTOR_ID kv) ∧
    (∃ out,
      Encoder.encode AESENCRYPTOR_ID
        (AESEncryptor.encrypt A (AESEncryptor.derivedKey password) nonce) sha kv = .ok out ∧
      Encoder.decode A sha password out = .ok AESENCRYPTOR_ID kv) := by
  constructor
  · refine ⟨(0 :: 0 :: sha (Body.toBytes kv)) ++ Body.toBytes kv,
      encode_blank_eq sha kv (hsha (Body.toBytes kv)), ?_⟩
    exact decode_ok_of_parts A sha password 0 (sha (Body.toBytes kv)) (Body.toBytes kv)
      (Body.toBytes kv) (hsha (Body.toBytes kv)) BlankEncryptor.decrypt rfl rfl rfl kv
      (tryFromBytes_toBytes kv hnodup hlen)
  · refine ⟨(0 :: 1 :: sha (Body.toBytes kv)) ++
      (nonce ++ A.gcmSeal (AESEncryptor.derivedKey password) nonce (Body.toBytes kv)),
      encode_aes_eq A sha (AESEncryptor.derivedKey password) nonce kv
        (hsha (Body.toBytes kv)), ?_⟩
    exact decode_ok_of_parts A sha password 1 (sha (Body.toBytes kv))
      (nonce ++ A.gcmSeal (AESEncryptor.derivedKey password) nonce (Body.toBytes kv))
      (Body.toBytes kv) (hsha (Body.toBytes kv))
      (AESEncryptor.decrypt A (AESEncryptor.derivedKey password)) rfl
      (aes_decrypt_encrypt A (AESEncryptor.derivedKey password) nonce (Body.toBytes kv) hnonce)
      rfl kv (tryFromBytes_toBytes kv hnodup hlen)

/-- Witness for C1: the round trip evaluated on the sample vault, password
byte 97 and the all-zero nonce, under the concrete digest and AEAD
instances. -/
theorem c1_encode_decode_round_trip_witness :
    (∃ out, Encoder.encode BLANKENCRYPTOR_ID BlankEncryptor.encrypt shaZ kvSample = .ok out ∧
      Encoder.decode gcmId shaZ [97] out = .ok BLANKENCRYPTOR_ID kvSample) ∧
    (∃ out,
      Encoder.encode AESENCRYPTOR_ID
        (AESEncryptor.encrypt gcmId (AESEncryptor.derivedKey [97]) (List.replicate 12 0))
        shaZ kvSample = .ok out ∧
      Encoder.decode gcmId shaZ [97] out = .ok AESENCRYPTOR_ID kvSample) :=
  c1_encode_decode_round_trip gcmId shaZ (fun _ => rfl) kvSample (by decide) (by decide)
    [97] (List.replicate 12 0) (by decide)

/-- Claim C2 counterexample: with the passthrough provider and two distinct
passwords (bytes 97 and 98), decoding a file encoded under the first
password using the second password does not fail: it succeeds and returns
the whole mapping, because the header digest is a digest of the plaintext
body and the passthrough provider ignores the password entirely, so the
digest check passes. -/
theorem c2_wrong_password_counterexample :
    ([97] : List Nat) ≠ [98] ∧
    Encoder.encode BLANKENCRYPTOR_ID BlankEncryptor.encrypt shaZ kvSample =
      .ok ((0 :: 0 :: List.replicate 32 0) ++ Body.toBytes kvSample) ∧
    Encoder.decode gcmId shaZ [98] ((0 :: 0 :: List.replicate 32 0) ++ Body.toBytes kvSample) =
      .ok BLANKENCRYPTOR_ID kvSample ∧
    Encoder.decode gcmId shaZ [98] ((0 :: 0 :: List.replicate 32 0) ++ Body.toBytes kvSample) ≠
      .err .IvalidKeyError :=
  ⟨by decide, rfl, rfl, by decide⟩

/-- Claim C2 (amended): decoding a file encoded under one password with a
different password behaves as follows.  For the AES-256-GCM provider, when
the AEAD rejects the ciphertext under the key derived from the wrong
password, decode does not succeed — the AEAD failure makes the `unwrap` in
`Encoder::decode` panic.  For the passthrough provider the digest check does
not fire at all: decode succeeds under any password, because the header
digest depends only on the plaintext body, which the passthrough provider
returns unchanged. -/
theorem c2_wrong_password_amended (A : AesGcm) (sha : List Nat → List Nat)
    (hsha : ∀ b, (sha b).length = 32) (kv : VaultKV)
    (hnodup : (kv.map Prod.fst).Nodup)
    (hlen : ∀ e ∈ kv, e.1.val.length < 2 ^ 64 ∧ e.2.length < 2 ^ 64)
    (pw1 pw2 nonce : List Nat) (hnonce : nonce.length = nonceLength)
    (hreject : A.gcmOpn (AESEncryptor.derivedKey pw2) nonce
        (A.gcmSeal (AESEncryptor.derivedKey pw1) nonce (Body.toBytes kv)) = none) :
    (∃ out,
      Encoder.encode AESENCRYPTOR_ID
        (AESEncryptor.encrypt A (AESEncryptor.derivedKey pw1) nonce) sha kv = .ok out ∧
      Encoder.decode A sha pw2 out = .panicked) ∧
    (∃ out, Encoder.encode BLANKENCRYPTOR_ID BlankEncryptor.encrypt sha kv = .ok out ∧
      Encoder.decode A sha pw2 out = .ok BLANKENCRYPTOR_ID kv) := by
  constructor
  · refine ⟨(0 :: 1 :: sha (Body.toBytes kv)) ++
      (nonce ++ A.gcmSeal (AESEncryptor.derivedKey pw1) nonce (Body.toBytes kv)),
      encode_aes_eq A sha (AESEncryptor.derivedKey pw1) nonce kv (hsha (Body.toBytes kv)), ?_⟩
    exact decode_panicked_of_parts A sha pw2 1 (sha (Body.toBytes kv))
      (nonce ++ A.gcmSeal (AESEncryptor.derivedKey pw1) nonce (Body.toBytes kv))
      (hsha (Body.toBytes kv)) (AESEncryptor.decrypt A (AESEncryptor.derivedKey pw2)) rfl
      .DecryptionError
      (aes_decrypt_err_of_opn_none A (AESEncryptor.derivedKey pw2) nonce
        (A.gcmSeal (AESEncryptor.derivedKey pw1) nonce (Body.toBytes kv)) hnonce hreject)
  · refine ⟨(0 :: 0 :: sha (Body.toBytes kv)) ++ Body.toBytes kv,
      encode_blank_eq sha kv (hsha (Body.toBytes kv)), ?_⟩
    exact decode_ok_of_parts A sha pw2 0 (sha (Body.toBytes kv)) (Body.toBytes kv)
      (Body.toBytes kv) (hsha (Body.toBytes kv)) BlankEncryptor.decrypt rfl rfl rfl kv
      (tryFromBytes_toBytes kv hnodup hlen)

/-- Witness for the amended C2: passwords 1 and 2 under the key-prefix AEAD
instance (whose open fails for a wrong key) and the sample vault. -/
theorem c2_wrong_password_amended_witness :
    (∃ out,
      Encoder.encode AESENCRYPTOR_ID
        (AESEncryptor.encrypt gcmKeyed (AESEncryptor.derivedKey [1]) (List.replicate 12 0))
        shaZ kvSample = .ok out ∧
      Encoder.decode gcmKeyed shaZ [2] out = .panicked) ∧
    (∃ out, Encoder.encode BLANKENCRYPTOR_ID BlankEncryptor.encrypt shaZ kvSample = .ok out ∧
      Encoder.decode gcmKeyed shaZ [2] out = .ok BLANKENCRYPTOR_ID kvSample) :=
  c2_wrong_password_amended gcmKeyed shaZ (fun _ => rfl) kvSample (by decide) (by decide)
    [1] [2] (List.replicate 12 0) (by decide) (by decide)

/-- Claim C3 (code bug evidence): `Sha256Hasher::hash` as written returns
the hex encoding of the digest — a 64-character ASCII string — not the raw
32-byte digest the spec describes and the `[u8; 32]` header field requires.
For every vault and every 32-byte digest primitive, the hasher output has
length 64, differs from the raw digest, and `Encoder::encode` built on this
hasher panics at the `try_into().unwrap()` conversion into `body_sha`
instead of writing a digest at offsets 2..34. -/
theorem c3_hasher_hex_not_raw_digest (sha : List Nat → List Nat)
    (hsha : ∀ b, (sha b).length = 32) (kv : VaultKV) :
    (Sha256Hasher.hash sha (Body.toBytes kv)).length = 64 ∧
    Sha256Hasher.hash sha (Body.toBytes kv) ≠ sha (Body.toBytes kv) ∧
    Encoder.encode BLANKENCRYPTOR_ID BlankEncryptor.encrypt (Sha256Hasher.hash sha) kv =
      .panicked := by
  have h64 : (Sha256Hasher.hash sha (Body.toBytes kv)).length = 64 := by
    rw [Sha256Hasher.hash, hexEncode_length, hsha]
  have hne : ¬ (Sha256Hasher.hash sha (Body.toBytes kv)).length = 32 := by
    rw [h64]
    decide
  refine ⟨h64, ?_, ?_⟩
  · intro hcontra
    rw [hcontra] at hne
    exact hne (hsha (Body.toBytes kv))
  · simp only [Encoder.encode, BlankEncryptor.encrypt, if_neg hne]

/-- Witness for C3 at the empty vault and the concrete digest instance. -/
theorem c3_hasher_hex_not_raw_digest_witness :
    (Sha256Hasher.hash shaZ (Body.toBytes [])).length = 64 ∧
    Sha256Hasher.hash shaZ (Body.toBytes []) ≠ shaZ (Body.toBytes []) ∧
    Encoder.encode BLANKENCRYPTOR_ID BlankEncryptor.encrypt (Sha256Hasher.hash shaZ) [] =
      .panicked :=
  c3_hasher_hex_not_raw_digest shaZ (fun _ => rfl) []

/-- Claim C4 (code bug evidence): when the provider fails to decrypt the
body ciphertext, `Encoder::decode` does not return a structured error — it
panics on `decrypt(..).unwrap()`.  Concretely, on a well-formed header
naming the AES provider followed by an empty body, `AESEncryptor::decrypt`
returns the structured `DecryptionError` (input shorter than the 12-byte
nonce), and decode panics instead of surfacing it. -/
theorem c4_decode_panics_on_decrypt_failure :
    AESEncryptor.decrypt gcmId (AESEncryptor.derivedKey [97]) [] = .error .DecryptionError ∧
    Encoder.decode gcmId shaZ [97] (0 :: 1 :: List.replicate 32 0) = .panicked :=
  ⟨rfl, rfl⟩

/-- Claim C5: an input whose 34-byte header carries the recognized version
byte 0 but an encryptor id that is neither 0 nor 1 makes `Encoder::decode`
fail with `UnsupportedEncryptorVersionError`, and the result is the same for
every body suffix — the body is never consumed, since the encryptor id is
resolved right after the header and before `read_to_end`. -/
theorem c5_unsupported_encryptor_id (A : AesGcm) (sha : List Nat → List Nat)
    (key : List Nat) (id : Nat) (h0 : id ≠ BLANKENCRYPTOR_ID) (h1 : id ≠ AESENCRYPTOR_ID)
    (shaB : List Nat) (hsha32 : shaB.length = 32) (rest rest1 : List Nat) :
    Encoder.decode A sha key ((0 :: id :: shaB) ++ rest) =
      .err .UnsupportedEncryptorVersionError ∧
    Encoder.decode A sha key ((0 :: id :: shaB) ++ rest) =
      Encoder.decode A sha key ((0 :: id :: shaB) ++ rest1) := by
  have hnone : encryptor_from_id A id key = none := by
    simp only [BLANKENCRYPTOR_ID] at h0
    simp only [AESENCRYPTOR_ID] at h1
    simp [encryptor_from_id, BLANKENCRYPTOR_ID, AESENCRYPTOR_ID, h0, h1]
  refine ⟨decode_err_unsupported A sha key id shaB rest hsha32 hnone, ?_⟩
  rw [decode_err_unsupported A sha key id shaB rest hsha32 hnone,
    decode_err_unsupported A sha key id shaB rest1 hsha32 hnone]

/-- Witness for C5 at encryptor id 255, with and without a body suffix. -/
theorem c5_unsupported_encryptor_id_witness :
    Encoder.decode gcmId shaZ [97] ((0 :: 255 :: List.replicate 32 0) ++ [7]) =
      .err .UnsupportedEncryptorVersionError ∧
    Encoder.decode gcmId shaZ [97] ((0 :: 255 :: List.replicate 32 0) ++ [7]) =
      Encoder.decode gcmId shaZ [97] ((0 :: 255 :: List.replicate 32 0) ++ []) :=
  c5_unsupported_encryptor_id gcmId shaZ [97] 255 (by decide) (by decide)
    (List.replicate 32 0) (by decide) [7] []

/-- Claim C6: the AES-256-GCM provider derives its 32-byte key from the raw
password bytes by truncation to 32 bytes when longer, right-padding with
zero bytes to 32 when shorter, and using the password unchanged at exactly
32 bytes. -/
theorem c6_aes_key_derivation (key : List Nat) :
    (key.length > aesKeySize → AESEncryptor.derivedKey key = key.take aesKeySize) ∧
    (key.length < aesKeySize →
      AESEncryptor.derivedKey key = key ++ List.replicate (aesKeySize - key.length) 0) ∧
    (key.length = aesKeySize → AESEncryptor.derivedKey key = key) := by
  refine ⟨?_, ?_, ?_⟩
  · intro h
    have ht : (key.take aesKeySize).length = aesKeySize := by
      simp only [List.length_take, aesKeySize] at h ⊢
      omega
    have hnot : ¬ (key.take aesKeySize).length < aesKeySize := by
      rw [ht]
      omega
    simp only [AESEncryptor.derivedKey, if_pos h, if_neg hnot]
  · intro h
    have hng : ¬ key.length > aesKeySize := by omega
    simp only [AESEncryptor.derivedKey, if_neg hng, if_pos h]
  · intro h
    have hng : ¬ key.length > aesKeySize := by omega
    have hnlt : ¬ key.length < aesKeySize := by omega
    simp only [AESEncryptor.derivedKey, if_neg hng, if_neg hnlt]

/-- Witness for C6 at a 33-byte, a 1-byte and a 32-byte password. -/
theorem c6_aes_key_derivation_witness :
    AESEncryptor.derivedKey (List.replicate 33 5) = (List.replicate 33 5).take aesKeySize ∧
    AESEncryptor.derivedKey [1] = [1] ++ List.replicate (aesKeySize - 1) 0 ∧
    AESEncryptor.derivedKey (List.replicate 32 9) = List.replicate 32 9 :=
  ⟨(c6_aes_key_derivation (List.replicate 33 5)).1 (by decide),
   (c6_aes_key_derivation [1]).2.1 (by decide),
   (c6_aes_key_derivation (List.replicate 32 9)).2.2 (by decide)⟩

/-- Claim C7 (code bug evidence): every failure of the length-prefixed body
parser is a `BodyParseError` (and the three malformation categories — a
length field with fewer than 8 remaining bytes, a key or value running past
the end of the buffer, a non-UTF-8 key — all fail); however
`Encoder::decode` does not surface this error to its caller: it panics on
`Body::try_from_bytes(..).unwrap()`, as the final conjunct shows on a
passthrough container whose plaintext body is the single byte 0. -/
theorem c7_body_parse_failures :
    (∀ bytes : List Nat, ∀ e, Body.tryFromBytes bytes = .error e → e = .BodyParseError) ∧
    (∀ bytes : List Nat, bytes ≠ [] → bytes.length < 8 →
      Body.tryFromBytes bytes = .error .BodyParseError) ∧
    (∀ klen vlen : Nat, ∀ rest : List Nat, klen < 2 ^ 64 → vlen < 2 ^ 64 →
      rest.length < klen →
      Body.tryFromBytes (toBE64 klen ++ (toBE64 vlen ++ rest)) = .error .BodyParseError) ∧
    (∀ key : List Nat, isValidUtf8 key = false → key.length < 2 ^ 64 →
      Body.tryFromBytes (toBE64 key.length ++ (toBE64 0 ++ key)) = .error .BodyParseError) ∧
    Encoder.decode gcmId shaZ [97] ((0 :: 0 :: List.replicate 32 0) ++ [0]) = .panicked := by
  refine ⟨tryFromBytes_error_eq, ?_, ?_, ?_, rfl⟩
  · intro bytes hne hlen8
    obtain ⟨n, hn⟩ : ∃ n, bytes.length = n + 1 := by
      refine ⟨bytes.length - 1, ?_⟩
      have : bytes.length ≠ 0 := fun hz => hne (List.length_eq_zero.mp hz)
      omega
    have hbE : ¬ (bytes.isEmpty = true) := by
      cases bytes with
      | nil => exact absurd rfl hne
      | cons a t => simp
    have hr : Body.readU64 bytes = .error .BodyParseError := by
      rw [Body.readU64, if_pos hlen8]
    rw [Body.tryFromBytes, hn, parseEntries_succ, if_neg hbE, hr]
  · intro klen vlen rest hk hv hrest
    have hlen : (toBE64 klen ++ (toBE64 vlen ++ rest)).length = (15 + rest.length) + 1 := by
      simp only [List.length_append, toBE64_length]
      omega
    have hbE : ¬ ((toBE64 klen ++ (toBE64 vlen ++ rest)).isEmpty = true) := by
      simp [toBE64]
    have htk : ¬ ((rest.take klen).length = klen) := by
      simp only [List.length_take]
      omega
    rw [Body.tryFromBytes, hlen, parseEntries_succ, if_neg hbE, readU64_ok klen hk]
    simp only [readU64_ok vlen hv, if_neg htk]
  · intro key hbad hklen
    have hlen : (toBE64 key.length ++ (toBE64 0 ++ key)).length = (15 + key.length) + 1 := by
      simp only [List.length_append, toBE64_length]
      omega
    have hbE : ¬ ((toBE64 key.length ++ (toBE64 0 ++ key)).isEmpty = true) := by
      simp [toBE64]
    have hnotval : ¬ (isValidUtf8 key = true) := by
      rw [hbad]
      simp
    rw [Body.tryFromBytes, hlen, parseEntries_succ, if_neg hbE, readU64_ok key.length hklen]
    simp only [readU64_ok 0 (by decide : (0 : Nat) < 2 ^ 64), List.take_length,
      eq_self_iff_true, if_true, dif_neg hnotval, List.length_take, List.length_drop,
      List.take_nil, List.drop_length, List.length_nil, Nat.min_self]

/-- Witness for C7: the three malformation categories evaluated on concrete
bodies. -/
theorem c7_body_parse_failures_witness :
    Body.tryFromBytes [0] = .error .BodyParseError ∧
    Body.tryFromBytes (toBE64 5 ++ (toBE64 0 ++ [1, 2])) = .error .BodyParseError ∧
    Body.tryFromBytes (toBE64 1 ++ (toBE64 0 ++ [255])) = .error .BodyParseError :=
  ⟨c7_body_parse_failures.2.1 [0] (by decide) (by decide),
   c7_body_parse_failures.2.2.1 5 0 [1, 2] (by decide) (by decide) (by decide),
   c7_body_parse_failures.2.2.2.1 [255] (by decide) (by decide)⟩

/-- Claim C8: after shield up, the first open event on the decoy honeypot
file triggers, in this order, the unmount of the decoy (via
`handle_shield_down`), the fixed 1000 ms delay, and the deletion of the real
vault root with all its contents (`handle_clear`/`Storage::clear`), after
which the watch loop terminates — the trace is the same for every tail of
further events; a shield down issued without any open event only unmounts
the decoy and leaves the real vault root and its contents intact. -/
theorem c8_shield_trigger_and_down (ev : Unit) (evs : List Unit) (s : SysState)
    (hroot : s.rootExists = true) :
    handle_shield_up_trace (ev :: evs) =
      [.prepareDecoy, .mountDecoy, .unmountDecoy, .sleepDelay, .clearRoot] ∧
    (runTrace s (handle_shield_up_trace (ev :: evs))).rootExists = false ∧
    (runTrace s (handle_shield_up_trace (ev :: evs))).rootContents = [] ∧
    handle_shield_down_trace = [.unmountDecoy] ∧
    (runTrace s handle_shield_down_trace).rootExists = true ∧
    (runTrace s handle_shield_down_trace).rootContents = s.rootContents ∧
    (runTrace s handle_shield_down_trace).decoyMounted = false := by
  refine ⟨rfl, ?_, ?_, rfl, ?_, rfl, rfl⟩ <;>
    simp [handle_shield_up_trace, handle_shield_down_trace, runTrace, applyAction,
      Storage.clear, hroot]

/-- Witness for C8: the trigger and the plain shield down evaluated on the
sample filesystem state. -/
theorem c8_shield_trigger_and_down_witness :
    handle_shield_up_trace [()] =
      [.prepareDecoy, .mountDecoy, .unmountDecoy, .sleepDelay, .clearRoot] ∧
    (runTrace sysSample (handle_shield_up_trace [()])).rootExists = false ∧
    (runTrace sysSample (handle_shield_up_trace [()])).rootContents = [] ∧
    handle_shield_down_trace = [.unmountDecoy] ∧
    (runTrace sysSample handle_shield_down_trace).rootExists = true ∧
    (runTrace sysSample handle_shield_down_trace).rootContents = sysSample.rootContents ∧
    (runTrace sysSample handle_shield_down_trace).decoyMounted = false :=
  c8_shield_trigger_and_down () [] sysSample rfl

/-- Claim C9: `Header::to_bytes` writes the byte of the current format
version at offset 0 regardless of the version field stored in the header
being serialized, and `Header::try_from_bytes (h.to_bytes())` returns `h`
exactly when the version field of `h` is the current version — which, with
the single enumerated version `V0_0`, is the case for every header. -/
theorem c9_header_to_bytes_round_trip (h : Header) :
    (Header.toBytes h).head? = some (Version.toU8 Version.currentVersion) ∧
    (Header.tryFromBytes (Header.toBytes h) = .ok h ↔
      h.version = Version.currentVersion) := by
  obtain ⟨v, id, shaB, hlen⟩ := h
  cases v
  refine ⟨rfl, ?_, fun _ => ?_⟩
  · intro _
    rfl
  · simp only [Header.toBytes, Header.tryFromBytes, Version.currentVersion, Version.toU8,
      Version.fromU8, eq_self_iff_true, if_true, dif_pos hlen]

/-- Claim C10: `PasswordManager::store_password` changes at most the map
entry of the stored key — inserting or overwriting it with the encrypted
value — and leaves the entry of every other key unchanged; when encrypting the
value fails, it returns that encryption error and the manager (its whole
map) is unchanged. -/
theorem c10_store_password_frame (pm : PasswordManager) (key value : List Nat) :
    (∀ e, pm.enc value = .error e →
      pm.store_password key value = (.error (.EncryptorError e), pm)) ∧
    (∀ ev, pm.enc value = .ok ev →
      (pm.store_password key value).1 = .ok () ∧
      lookupA (pm.store_password key value).2.kv key = some ev) ∧
    (∀ k, k ≠ key → lookupA (pm.store_password key value).2.kv k = lookupA pm.kv k) := by
  refine ⟨?_, ?_, ?_⟩
  · intro e he
    simp [PasswordManager.store_password, he]
  · intro ev hev
    simp [PasswordManager.store_password, hev, lookupA_insertA_self]
  · intro k hk
    rcases hv : pm.enc value with e | ev
    · simp [PasswordManager.store_password, hv]
    · simp [PasswordManager.store_password, hv, lookupA_insertA_ne pm.kv key k ev hk]

/-- Witness for C10 on the sample manager: the entry of the other key `[3]`
is untouched, the call succeeds and the stored key `[1]` holds the
encrypted value. -/
theorem c10_store_password_frame_witness :
    lookupA ((pmSample.store_password [1] [2]).2).kv [3] = lookupA pmSample.kv [3] ∧
    (pmSample.store_password [1] [2]).1 = .ok () ∧
    lookupA ((pmSample.store_password [1] [2]).2).kv [1] = some [0, 2] :=
  ⟨(c10_store_password_frame pmSample [1] [2]).2.2 [3] (by decide),
   ((c10_store_password_frame pmSample [1] [2]).2.1 [0, 2] rfl).1,
   ((c10_store_password_frame pmSample [1] [2]).2.1 [0, 2] rfl).2⟩

end Mopm